import Mathlib

/-!
Verification of the tagtagtag-ears character driver (src/tagtagtag-ears.c).

The development shallowly embeds the driver's per-ear state machine and
command protocol:

* the calibration delta analysis performed by irq_handler_testing when the
  17th forward delta is collected (lines 318-362) is embedded as the pure
  function calibrate over the collected delta sequence;
* the backward coherence check on the 18th edge (lines 366-394) is embedded
  as backward_test;
* the rest of the machine (idle/running transitions, the broken-timer
  callback, the file operations open/read/write) is embedded as pure
  functions over an Ear record; kernel timestamps are not part of any
  property below and are therefore not carried in the record, and blocking
  waits are represented by the predicates the C code waits on.
-/

def NUM_HOLES : Nat := 17

def EARS_OFFZERO : Nat := 3

/-- position_add from the source: add an increment to a position and bring
the result back into the range 0..16 by a single +-17 correction. -/
def position_add (position increment : Int) : Int :=
  let result := position + increment
  if result < 0 then result + NUM_HOLES
  else if result ≥ NUM_HOLES then result - NUM_HOLES
  else result

/-- The running scan variables of the delta-analysis loop of
irq_handler_testing (local variables min, max, gap, gap_ix). -/
structure ScanState where
  smin : Nat
  smax : Nat
  gap : Nat
  gap_ix : Nat
deriving DecidableEq

/-- Initialisation of the scan from the first two deltas
(first_delta, second_delta): min = max = min of the two, gap = max of the
two, gap_ix = 0. -/
def scanInit (d : Nat → Nat) : ScanState :=
  { smin := min (d 0) (d 1)
    smax := min (d 0) (d 1)
    gap := max (d 0) (d 1)
    gap_ix := 0 }

/-- One iteration of the for loop of irq_handler_testing at index ix with
delta v. -/
def scanStep (s : ScanState) (ix : Nat) (v : Nat) : ScanState :=
  if s.smin > v then { s with smin := v }
  else if s.gap < v then { s with smax := s.gap, gap := v, gap_ix := ix }
  else if s.smax < v then { s with smax := v }
  else s

/-- State of the scan after processing deltas at indices 2 .. k+1;
scanTo d 15 is the state after the full loop (indices 2..16). -/
def scanTo (d : Nat → Nat) : Nat → ScanState
  | 0 => scanInit d
  | k + 1 => scanStep (scanTo d k) (k + 2) (d (k + 2))

/-- Outcome of the forward-calibration analysis. -/
inductive CalibResult where
  | broken : CalibResult
  | success (forward_position : Nat) (detect_boundary_us : Nat) : CalibResult
deriving DecidableEq

/-- The analysis irq_handler_testing performs once the 17 forward deltas
are collected (lines 318-362): run the scan, declare the ear broken when
gap < max + max/2, otherwise compute forward_position =
NUM_HOLES - 1 - gap_ix - EARS_OFFZERO (corrected by +NUM_HOLES when
negative) and detect_boundary_us = (max + gap) >> 1. -/
def calibrate (d : Nat → Nat) : CalibResult :=
  let s := scanTo d 15
  let half_max := s.smax / 2
  if s.gap < s.smax + half_max then CalibResult.broken
  else
    let fp0 : Int := (NUM_HOLES : Int) - 1 - (s.gap_ix : Int) - (EARS_OFFZERO : Int)
    let fp := if fp0 < 0 then fp0 + (NUM_HOLES : Int) else fp0
    CalibResult.success fp.toNat ((s.smax + s.gap) / 2)

/-- Outcome of the 18th-edge backward coherence check. -/
inductive BackwardTestResult where
  | broken : BackwardTestResult
  | idle (position : Int) : BackwardTestResult
deriving DecidableEq

/-- The backward coherence check of irq_handler_testing (lines 366-394):
if forward_position = NUM_HOLES - EARS_OFFZERO the ear is broken when the
backward delta is strictly below the boundary, otherwise it is broken when
the delta is strictly above the boundary; a passing check ends idle at
position_add forward_position (-1). -/
def backward_test (forward_position : Int) (detect_boundary_us backward_delta : Nat) :
    BackwardTestResult :=
  let isBroken :=
    if forward_position = (NUM_HOLES : Int) - (EARS_OFFZERO : Int) then
      backward_delta < detect_boundary_us
    else
      backward_delta > detect_boundary_us
  if isBroken then BackwardTestResult.broken
  else BackwardTestResult.idle (position_add forward_position (-1))

/-- Maximum of d over indices below n (0 for n = 0). -/
def pmax (d : Nat → Nat) : Nat → Nat
  | 0 => 0
  | n + 1 => max (pmax d n) (d n)

/-- Minimum of d over indices below n (0 for n = 0, d 0 for n = 1). -/
def pmin (d : Nat → Nat) : Nat → Nat
  | 0 => 0
  | n + 1 => if n = 0 then d 0 else min (pmin d n) (d n)

/-- Maximum of d over indices below n distinct from g. -/
def pmaxExcept (d : Nat → Nat) (g : Nat) : Nat → Nat
  | 0 => 0
  | n + 1 => if n = g then pmaxExcept d g n else max (pmaxExcept d g n) (d n)

/-- Second-largest value of d over indices below n, counting multiplicity
(the largest value of the prefix with one copy of its maximum removed). -/
def pmax2 (d : Nat → Nat) : Nat → Nat
  | 0 => 0
  | n + 1 => if pmax d n < d n then pmax d n else max (pmax2 d n) (d n)

theorem le_pmax (d : Nat → Nat) : ∀ {n i : Nat}, i < n → d i ≤ pmax d n := by
  intro n
  induction n with
  | zero => intro i h; omega
  | succ n ih =>
    intro i h
    rcases Nat.lt_succ_iff_lt_or_eq.mp h with h' | h'
    · exact le_trans (ih h') (Nat.le_max_left _ _)
    · subst h'; exact Nat.le_max_right _ _

theorem pmax_le (d : Nat → Nat) {n b : Nat} (h : ∀ i, i < n → d i ≤ b) :
    pmax d n ≤ b := by
  induction n with
  | zero => exact Nat.zero_le b
  | succ n ih =>
    exact Nat.max_le.mpr ⟨ih fun i hi => h i (Nat.lt_succ_of_lt hi), h n (Nat.lt_succ_self n)⟩

theorem pmax_lt (d : Nat → Nat) {n c : Nat} (hn : 1 ≤ n) (h : ∀ i, i < n → d i < c) :
    pmax d n < c := by
  induction n with
  | zero => omega
  | succ n ih =>
    cases Nat.eq_zero_or_pos n with
    | inl h0 =>
      subst h0
      simpa [pmax] using h 0 (by omega)
    | inr h1 =>
      exact Nat.max_lt.mpr ⟨ih h1 fun i hi => h i (Nat.lt_succ_of_lt hi), h n (Nat.lt_succ_self n)⟩

theorem pmin_succ (d : Nat → Nat) {n : Nat} (hn : 1 ≤ n) :
    pmin d (n + 1) = min (pmin d n) (d n) := by
  cases n with
  | zero => omega
  | succ m => rfl

theorem pmin_le (d : Nat → Nat) : ∀ {n i : Nat}, i < n → pmin d n ≤ d i := by
  intro n
  induction n with
  | zero => intro i h; omega
  | succ n ih =>
    intro i h
    cases Nat.eq_zero_or_pos n with
    | inl h0 =>
      subst h0
      have : i = 0 := by omega
      subst this
      simp [pmin]
    | inr h1 =>
      rw [pmin_succ d h1]
      rcases Nat.lt_succ_iff_lt_or_eq.mp h with h' | h'
      · exact le_trans (Nat.min_le_left _ _) (ih h')
      · subst h'; exact Nat.min_le_right _ _

theorem pmax2_le_pmax (d : Nat → Nat) : ∀ n, pmax2 d n ≤ pmax d n := by
  intro n
  induction n with
  | zero => simp [pmax2, pmax]
  | succ n ih =>
    show pmax2 d (n + 1) ≤ pmax d (n + 1)
    rw [pmax2, pmax]
    split
    · exact le_trans (Nat.le_max_left _ _) (le_refl _)
    · exact Nat.max_le.mpr ⟨le_trans ih (Nat.le_max_left _ _), Nat.le_max_right _ _⟩

theorem pmax2_one (d : Nat → Nat) : pmax2 d 1 = 0 := by
  rw [pmax2]
  split
  · simp [pmax]
  · rename_i h
    simp only [pmax] at h ⊢
    simp [pmax2]
    omega

theorem pmin_le_pmax2 (d : Nat → Nat) : ∀ {n : Nat}, 2 ≤ n → pmin d n ≤ pmax2 d n := by
  intro n
  induction n with
  | zero => omega
  | succ n ih =>
    intro h
    cases Nat.lt_or_ge n 2 with
    | inl h2 =>
      have hn1 : n = 1 := by omega
      subst hn1
      rw [pmin_succ d (by omega), pmax2]
      have h1 : pmax d 1 = d 0 := by simp [pmax]
      rw [h1, pmax2_one]
      have h3 : pmin d 1 = d 0 := by simp [pmin]
      have h4 := Nat.min_le_left (pmin d 1) (d 1)
      have h5 := Nat.min_le_right (pmin d 1) (d 1)
      have h6 := Nat.le_max_right 0 (d 1)
      split <;> omega
    | inr h2 =>
      rw [pmin_succ d (by omega), pmax2]
      have hle := ih h2
      have hle2 := pmax2_le_pmax d n
      have h4 := Nat.min_le_left (pmin d n) (d n)
      have h5 := Nat.le_max_left (pmax2 d n) (d n)
      split <;> omega

theorem le_pmaxExcept (d : Nat → Nat) (g : Nat) :
    ∀ {n i : Nat}, i < n → i ≠ g → d i ≤ pmaxExcept d g n := by
  intro n
  induction n with
  | zero => intro i h; omega
  | succ n ih =>
    intro i h hig
    rw [pmaxExcept]
    rcases Nat.lt_succ_iff_lt_or_eq.mp h with h' | h'
    · split
      · exact ih h' hig
      · exact le_trans (ih h' hig) (Nat.le_max_left _ _)
    · subst h'
      split
      · omega
      · exact Nat.le_max_right _ _

theorem pmaxExcept_le (d : Nat → Nat) (g : Nat) {n b : Nat}
    (h : ∀ i, i < n → i ≠ g → d i ≤ b) : pmaxExcept d g n ≤ b := by
  induction n with
  | zero => exact Nat.zero_le b
  | succ n ih =>
    rw [pmaxExcept]
    have ih' := ih fun i hi => h i (Nat.lt_succ_of_lt hi)
    split
    · exact ih'
    · exact Nat.max_le.mpr ⟨ih', h n (Nat.lt_succ_self n) (by assumption)⟩

theorem pmaxExcept_le_pmax (d : Nat → Nat) (g n : Nat) :
    pmaxExcept d g n ≤ pmax d n :=
  pmaxExcept_le d g fun i hi _ => le_pmax d hi

theorem pmaxExcept_of_ge (d : Nat → Nat) (g : Nat) :
    ∀ {n : Nat}, n ≤ g → pmaxExcept d g n = pmax d n := by
  intro n
  induction n with
  | zero => intro _; rfl
  | succ n ih =>
    intro h
    rw [pmaxExcept, pmax, if_neg (by omega), ih (by omega)]

theorem pmin_le_pmaxExcept (d : Nat → Nat) (g : Nat) {n : Nat} (hn : 2 ≤ n) :
    pmin d n ≤ pmaxExcept d g n := by
  by_cases hg : g = 0
  · subst hg
    exact le_trans (pmin_le d (show 1 < n by omega)) (le_pmaxExcept d 0 (by omega) (by omega))
  · exact le_trans (pmin_le d (show 0 < n by omega)) (le_pmaxExcept d g (by omega) (Ne.symm hg))

theorem pmin_le_pmax (d : Nat → Nat) {n : Nat} (hn : 1 ≤ n) :
    pmin d n ≤ pmax d n :=
  le_trans (pmin_le d (show 0 < n by omega)) (le_pmax d (show 0 < n by omega))

/-- One step of the delta-analysis loop preserves the loop invariant: after
processing the prefix of length n, smin is the prefix minimum, gap the
prefix maximum, smax the prefix second-largest (equal to the largest
non-gap delta once the unique gap index g is inside the prefix), and
gap_ix is g when 2 ≤ g and 0 otherwise. -/
theorem scanStep_invariant (d : Nat → Nat) (g n : Nat) (hg : g < 17) (hn2 : 2 ≤ n)
    (hn : n < 17) (hu : ∀ i, i < 17 → i ≠ g → d i < d g) (s : ScanState)
    (hmin : s.smin = pmin d n) (hgap : s.gap = pmax d n)
    (hlt : g < n → s.smax = pmaxExcept d g n ∧ s.gap_ix = if 2 ≤ g then g else 0)
    (hge : n ≤ g → s.smax = pmax2 d n) :
    (scanStep s n (d n)).smin = pmin d (n + 1) ∧
    (scanStep s n (d n)).gap = pmax d (n + 1) ∧
    (g < n + 1 → (scanStep s n (d n)).smax = pmaxExcept d g (n + 1) ∧
      (scanStep s n (d n)).gap_ix = if 2 ≤ g then g else 0) ∧
    (n + 1 ≤ g → (scanStep s n (d n)).smax = pmax2 d (n + 1)) := by
  have hpminmax := pmin_le_pmax d (show 1 ≤ n by omega)
  have hpminpmax2 := pmin_le_pmax2 d hn2
  have hpmax2pmax := pmax2_le_pmax d n
  have hpminpE := pmin_le_pmaxExcept d g (n := n) hn2
  have hpE := pmaxExcept_le_pmax d g n
  have hpmin_d0 := pmin_le d (show 0 < n by omega)
  rw [pmin_succ d (show 1 ≤ n by omega), pmax, pmax2, pmaxExcept]
  obtain ⟨smin0, smax0, gap0, gapix0⟩ := s
  dsimp only at hmin hgap hlt hge
  subst hmin hgap
  simp only [scanStep]
  by_cases hA : pmin d n > d n
  · rw [if_pos hA]
    dsimp only
    refine ⟨by omega, by omega, ?_, ?_⟩
    · intro hgn1
      have hgn : g < n := by
        by_contra hcon
        have hgeq : g = n := by omega
        have h2 := hu 0 (by omega) (by omega)
        have h3 : d g = d n := by rw [hgeq]
        omega
      obtain ⟨hmax, hix⟩ := hlt hgn
      constructor
      · rw [if_neg (by omega)]
        omega
      · exact hix
    · intro h
      have := hge (by omega)
      rw [if_neg (by omega)]
      omega
  · rw [if_neg hA]
    by_cases hB : pmax d n < d n
    · rw [if_pos hB]
      dsimp only
      have hng : n ≤ g := by
        by_contra hcon
        push_neg at hcon
        have h1 := le_pmax d (show g < n from hcon)
        have h2 := hu n (by omega) (by omega)
        omega
      refine ⟨by omega, by omega, ?_, ?_⟩
      · intro hgn1
        have hgeq : n = g := by omega
        constructor
        · rw [if_pos hgeq, pmaxExcept_of_ge d g (by omega)]
        · rw [if_pos (show 2 ≤ g by omega)]
          omega
      · intro _
        rw [if_pos hB]
    · rw [if_neg hB]
      have hngcases : g < n ∨ n < g := by
        rcases Nat.lt_trichotomy g n with h | h | h
        · exact Or.inl h
        · exfalso
          have h2 : pmax d n < d g := pmax_lt d (by omega) (fun i hi => hu i (by omega) (by omega))
          have h3 : d n = d g := by rw [h]
          omega
        · exact Or.inr h
      by_cases hC : smax0 < d n
      · rw [if_pos hC]
        dsimp only
        refine ⟨by omega, by omega, ?_, ?_⟩
        · intro hgn1
          rcases hngcases with hgn | hgn
          · obtain ⟨hmax, hix⟩ := hlt hgn
            constructor
            · rw [if_neg (by omega)]
              omega
            · exact hix
          · omega
        · intro h
          have := hge (by omega)
          rw [if_neg hB]
          omega
      · rw [if_neg hC]
        dsimp only
        refine ⟨by omega, by omega, ?_, ?_⟩
        · intro hgn1
          rcases hngcases with hgn | hgn
          · obtain ⟨hmax, hix⟩ := hlt hgn
            constructor
            · rw [if_neg (by omega)]
              omega
            · exact hix
          · omega
        · intro h
          have := hge (by omega)
          rw [if_neg hB]
          omega


/-- The loop invariant holds after every prefix of the delta-analysis
loop. -/
theorem scanTo_invariant (d : Nat → Nat) (g : Nat) (hg : g < 17)
    (hu : ∀ i, i < 17 → i ≠ g → d i < d g) :
    ∀ k, k ≤ 15 →
      (scanTo d k).smin = pmin d (k + 2) ∧
      (scanTo d k).gap = pmax d (k + 2) ∧
      (g < k + 2 → (scanTo d k).smax = pmaxExcept d g (k + 2) ∧
        (scanTo d k).gap_ix = if 2 ≤ g then g else 0) ∧
      (k + 2 ≤ g → (scanTo d k).smax = pmax2 d (k + 2)) := by
  intro k
  induction k with
  | zero =>
    intro _
    refine ⟨?_, ?_, ?_, ?_⟩
    · show min (d 0) (d 1) = pmin d 2
      rw [pmin_succ d (by omega)]
      have h1 : pmin d 1 = d 0 := by simp [pmin]
      rw [h1]
    · show max (d 0) (d 1) = pmax d 2
      rw [pmax]
      have h1 : pmax d 1 = d 0 := by simp [pmax]
      rw [h1]
    · intro hg2
      constructor
      · show min (d 0) (d 1) = pmaxExcept d g 2
        rcases (by omega : g = 0 ∨ g = 1) with h | h
        · subst h
          have h1 : pmaxExcept d 0 2 = d 1 := by simp [pmaxExcept]
          have h2 := hu 1 (by omega) (by omega)
          rw [h1]
          omega
        · subst h
          have h1 : pmaxExcept d 1 2 = d 0 := by simp [pmaxExcept]
          have h2 := hu 0 (by omega) (by omega)
          rw [h1]
          omega
      · show (0 : Nat) = if 2 ≤ g then g else 0
        rw [if_neg (by omega)]
    · intro hg2
      show min (d 0) (d 1) = pmax2 d 2
      rw [pmax2, pmax2_one]
      have h1 : pmax d 1 = d 0 := by simp [pmax]
      rw [h1]
      have h4 := Nat.le_max_right 0 (d 1)
      have h5 : max 0 (d 1) = d 1 := by omega
      rw [h5]
      split <;> omega
  | succ k ih =>
    intro hk
    have ihk := ih (by omega)
    show (scanStep (scanTo d k) (k + 2) (d (k + 2))).smin = _ ∧ _
    exact scanStep_invariant d g (k + 2) hg (by omega) (by omega) hu (scanTo d k)
      ihk.1 ihk.2.1 ihk.2.2.1 ihk.2.2.2

/-- At the end of the scan, gap is the unique largest delta, smax is the
largest of the 16 other deltas, and gap_ix is the gap index, except that a
gap at index 1 is attributed to index 0. -/
theorem scan_final (d : Nat → Nat) (g : Nat) (hg : g < 17)
    (hu : ∀ i, i < 17 → i ≠ g → d i < d g) :
    (scanTo d 15).gap = d g ∧
    (scanTo d 15).smax = pmaxExcept d g 17 ∧
    (scanTo d 15).gap_ix = if 2 ≤ g then g else 0 := by
  have h := scanTo_invariant d g hg hu 15 (by omega)
  obtain ⟨hmax, hix⟩ := h.2.2.1 (by omega)
  refine ⟨?_, hmax, hix⟩
  rw [h.2.1]
  show pmax d 17 = d g
  have h1 : pmax d 17 ≤ d g := pmax_le d fun i hi => by
    by_cases hig : i = g
    · subst hig; exact le_refl _
    · exact le_of_lt (hu i hi hig)
  have h2 : d g ≤ pmax d 17 := le_pmax d hg
  omega

theorem position_add_emod (p inc : Int) (hp0 : 0 ≤ p) (hp : p < 17)
    (hinc0 : -17 ≤ inc) (hinc : inc ≤ 17) :
    position_add p inc = (p + inc) % 17 := by
  simp only [position_add, NUM_HOLES]
  split
  · omega
  · split <;> omega

/-- C1 (amended): when the 17 collected deltas have a unique largest
("gap") delta at an index other than 1 and that gap is valid
(gap ≥ max + max/2 where max is the largest of the 16 other deltas), the
calibration analysis succeeds with
forward_position = (17 - 1 - gap_index - 3) mod 17 and
DetectBoundary = (max + gap) / 2, the integer average of the second-largest
and largest deltas. (When the gap sits at index 1, the scan attributes it
to index 0: see the counterexample.) -/
theorem calibrate_success_characterization (d : Nat → Nat) (g : Nat)
    (hg : g < 17) (hg1 : g ≠ 1)
    (hu : ∀ i, i < 17 → i ≠ g → d i < d g)
    (hv : pmaxExcept d g 17 + pmaxExcept d g 17 / 2 ≤ d g) :
    calibrate d = CalibResult.success
      ((((17 : Int) - 1 - (g : Int) - 3) % 17).toNat)
      ((pmaxExcept d g 17 + d g) / 2) := by
  obtain ⟨hgap, hmax, hix⟩ := scan_final d g hg hu
  have h1 : ((NUM_HOLES : Nat) : Int) = 17 := by norm_num [NUM_HOLES]
  have h2 : ((EARS_OFFZERO : Nat) : Int) = 3 := by norm_num [EARS_OFFZERO]
  simp only [calibrate]
  rw [hgap, hmax, hix, if_neg (by omega), h1, h2]
  rcases (by omega : (g = 0 ∧ ¬ 2 ≤ g) ∨ 2 ≤ g) with ⟨hg0, hgn⟩ | hgle
  · rw [if_neg hgn, hg0]
    rw [CalibResult.success.injEq]
    refine ⟨?_, rfl⟩
    split <;> omega
  · rw [if_pos hgle]
    rw [CalibResult.success.injEq]
    refine ⟨?_, rfl⟩
    split <;> omega

/-- Concrete counterexample to C1 as stated: with the unique valid gap at
index 1 (deltas 100 everywhere except 800 at index 1), the code attributes
the gap to index 0 and reports forward position 13, while
(17 - 1 - 1 - 3) mod 17 = 12. -/
theorem calibrate_gap_at_index_one_counterexample :
    (∀ i, i < 17 → i ≠ 1 → (fun i => if i = 1 then 800 else 100) i
      < (fun i => if i = 1 then 800 else 100) 1) ∧
    pmaxExcept (fun i => if i = 1 then 800 else 100) 1 17 +
      pmaxExcept (fun i => if i = 1 then 800 else 100) 1 17 / 2 ≤ 800 ∧
    calibrate (fun i => if i = 1 then 800 else 100) =
      CalibResult.success 13 450 ∧
    ((((17 : Int) - 1 - 1 - 3) % 17).toNat = 12 ∧ (13 : Nat) ≠ 12) := by
  refine ⟨by decide, by decide, by decide, by decide, by decide⟩

/-- Witness for C1's amended theorem at a concrete delta sequence with the
gap at index 4. -/
theorem calibrate_success_witness :
    (∀ i, i < 17 → i ≠ 4 → (fun i => if i = 4 then 800 else 100) i
      < (fun i => if i = 4 then 800 else 100) 4) ∧
    calibrate (fun i => if i = 4 then 800 else 100) =
      CalibResult.success ((((17 : Int) - 1 - (4 : Int) - 3) % 17).toNat)
        ((pmaxExcept (fun i => if i = 4 then 800 else 100) 4 17 +
          (fun i => if i = 4 then 800 else 100) 4) / 2) :=
  ⟨by decide,
   calibrate_success_characterization (fun i => if i = 4 then 800 else 100) 4
     (by decide) (by decide) (by decide) (by decide)⟩

/-- C6: for every delta sequence whose unique largest delta is smaller
than max + max/2 (1.5 times the largest of the 16 other deltas, in integer
arithmetic), the analysis declares the ear broken, whatever the gap index
and the particular timings. -/
theorem calibrate_broken_of_small_gap (d : Nat → Nat) (g : Nat)
    (hg : g < 17)
    (hu : ∀ i, i < 17 → i ≠ g → d i < d g)
    (hv : d g < pmaxExcept d g 17 + pmaxExcept d g 17 / 2) :
    calibrate d = CalibResult.broken := by
  obtain ⟨hgap, hmax, _⟩ := scan_final d g hg hu
  simp only [calibrate]
  rw [hgap, hmax, if_pos (by omega)]

/-- Witness for C6 at a concrete delta sequence: gap 120 at index 2 is
below 1.5 times the normal 100. -/
theorem calibrate_broken_witness :
    ((fun i => if i = 2 then 120 else 100) 2
      < pmaxExcept (fun i => if i = 2 then 120 else 100) 2 17 +
        pmaxExcept (fun i => if i = 2 then 120 else 100) 2 17 / 2) ∧
    calibrate (fun i => if i = 2 then 120 else 100) = CalibResult.broken :=
  ⟨by decide,
   calibrate_broken_of_small_gap (fun i => if i = 2 then 120 else 100) 2
     (by decide) (by decide) (by decide)⟩

/-- Concrete counterexample to C2 as stated: with forward_position
14 = 17 - 3 and a backward delta exactly equal to DetectBoundary (100),
the delta does not strictly exceed the boundary, yet the code does not
declare the ear broken: it transitions to idle at position 13. -/
theorem backward_test_boundary_counterexample :
    backward_test 14 100 100 = BackwardTestResult.idle 13 ∧ ¬ (100 > 100) := by
  refine ⟨by decide, by decide⟩

/-- C2 (amended): on the 18th calibration edge the ear is declared broken
exactly when forward_position = (17 - 3) mod 17 = 14 and the backward
delta is strictly below DetectBoundary, or forward_position differs from
14 and the delta is strictly above DetectBoundary (a delta exactly equal
to the boundary passes in both cases); a passing check transitions to
idle at position (forward_position - 1) mod 17. -/
theorem backward_test_characterization (fp : Int) (boundary delta : Nat)
    (hfp0 : 0 ≤ fp) (hfp : fp < 17) :
    (backward_test fp boundary delta = BackwardTestResult.broken ↔
      ((fp = 14 ∧ delta < boundary) ∨ (fp ≠ 14 ∧ boundary < delta))) ∧
    (backward_test fp boundary delta ≠ BackwardTestResult.broken →
      backward_test fp boundary delta = BackwardTestResult.idle ((fp - 1) % 17)) := by
  have hpa : position_add fp (-1) = (fp - 1) % 17 :=
    position_add_emod fp (-1) hfp0 hfp (by omega) (by omega)
  have h14 : ((NUM_HOLES : Nat) : Int) - ((EARS_OFFZERO : Nat) : Int) = 14 := by
    norm_num [NUM_HOLES, EARS_OFFZERO]
  simp only [backward_test, hpa, h14]
  split_ifs with ha hb hb
  · exact ⟨⟨fun _ => Or.inl ⟨ha, hb⟩, fun _ => rfl⟩, fun hc => absurd rfl hc⟩
  · constructor
    · constructor
      · intro hcon
        exact absurd hcon (by simp)
      · intro hcon
        exfalso
        rcases hcon with ⟨_, hlt⟩ | ⟨hne, _⟩
        · omega
        · exact hne ha
    · intro _
      rfl
  · exact ⟨⟨fun _ => Or.inr ⟨ha, hb⟩, fun _ => rfl⟩, fun hc => absurd rfl hc⟩
  · constructor
    · constructor
      · intro hcon
        exact absurd hcon (by simp)
      · intro hcon
        exfalso
        rcases hcon with ⟨heq, _⟩ | ⟨_, hgt⟩
        · exact ha heq
        · omega
    · intro _
      rfl

/-- Witness for C2's amended theorem at forward position 5, boundary 450,
backward delta 100. -/
theorem backward_test_witness :
    backward_test 5 450 100 = BackwardTestResult.idle (((5 : Int) - 1) % 17) :=
  (backward_test_characterization 5 450 100 (by decide) (by decide)).2 (by decide)

/-- detecting_post_state_e from the source. -/
inductive PostState where
  | goto_position : PostState
  | read_position : PostState
deriving DecidableEq

/-- The tagged variant of the ear state union (state_e plus the fields of
the active union member that the embedded operations read or write; the
testing and detecting timestamp bookkeeping is modelled separately by
calibrate and backward_test and is not read by any embedded operation). -/
inductive EarState where
  | testing : EarState
  | detecting (post : PostState) (direction : Int) (new_position : Nat) : EarState
  | idle (position : Int) : EarState
  | running (position : Int) (direction : Int) (count : Nat) : EarState
  | broken : EarState
deriving DecidableEq

def EarState.isBroken : EarState → Bool
  | EarState.broken => true
  | _ => false

def EarState.isIdle : EarState → Bool
  | EarState.idle _ => true
  | _ => false

def EarState.isTesting : EarState → Bool
  | EarState.testing => true
  | _ => false

/-- The two motor GPIO output levels (motor_gpios desc 0 and desc 1). -/
structure Motor where
  pin0 : Bool
  pin1 : Bool
deriving DecidableEq

/-- The per-ear driver record (struct tagtagtagear_data): learned boundary,
single-slot read result, one-byte partial-command buffer, open flag, the
motor output pins, whether the broken timer is armed, and the active
state variant. -/
structure Ear where
  detect_boundary_us : Nat
  read_result_available : Bool
  read_result : Int
  buffer : Nat
  buffer_size : Bool
  opened : Bool
  motor : Motor
  watchdog_armed : Bool
  state : EarState
deriving DecidableEq

def start_motors_backward (e : Ear) : Ear :=
  { e with motor := { pin0 := false, pin1 := true } }

def start_motors_forward (e : Ear) : Ear :=
  { e with motor := { pin0 := true, pin1 := false } }

def stop_motors (e : Ear) : Ear :=
  { e with motor := { pin0 := false, pin1 := false } }

/-- del_timer_sync followed by mod_timer: the watchdog ends up armed. -/
def reset_broken_timer (e : Ear) : Ear :=
  { e with watchdog_armed := true }

/-- del_timer_sync alone: the watchdog ends up cancelled. -/
def del_broken_timer (e : Ear) : Ear :=
  { e with watchdog_armed := false }

def transition_to_broken (e : Ear) : Ear :=
  { e with state := EarState.broken }

def transition_to_idle (e : Ear) (position : Int) : Ear :=
  { e with state := EarState.idle position }

/-- transition_to_running from the source: arm the watchdog, then start the
motor in the direction of the delta with count = |delta| (stored in a
uint8_t, hence mod 256); a zero delta cancels the watchdog, stops the
motor, overwrites the pending read result with the position when one is
pending, and goes directly to idle. -/
def transition_to_running (e : Ear) (position : Int) (delta : Int) : Ear :=
  let e := reset_broken_timer { e with state := EarState.running position 0 0 }
  if 0 < delta then
    start_motors_forward
      { e with state := EarState.running position 1 (delta.toNat % 256) }
  else if delta < 0 then
    start_motors_backward
      { e with state := EarState.running position (-1) ((-delta).toNat % 256) }
  else
    let e := stop_motors (del_broken_timer e)
    let e := if e.read_result_available then { e with read_result := position } else e
    transition_to_idle e position

/-- transition_to_detecting from the source; the encoder level is only
used to seed the (unmodelled) last_hole_time timestamp. -/
def transition_to_detecting (e : Ear) (post : PostState) (direction : Int)
    (new_position : Nat) : Ear :=
  let e := reset_broken_timer
    { e with state := EarState.detecting post direction new_position }
  if 0 < direction then start_motors_forward e else start_motors_backward e

/-- get_idle_position from the source, with the sampled encoder level as
input: when the level is high and the stored idle position is known, the
ear was moved, so the position becomes unknown (-1) and, if no read result
is pending, the moved marker (ASCII m = 109) is published. Only called
with the state variant idle (all callers run under state_e == idle). -/
def get_idle_position (level : Bool) (e : Ear) : Ear × Int :=
  match e.state with
  | EarState.idle p =>
    if level = true ∧ p ≠ -1 then
      let e1 := { e with state := EarState.idle (-1) }
      if e1.read_result_available = false then
        ({ e1 with read_result_available := true, read_result := 109 }, -1)
      else (e1, -1)
    else (e, p)
  | _ => (e, 0)

def move_forward (level : Bool) (e : Ear) (arg : Nat) : Ear :=
  let r := get_idle_position level e
  let e := { r.1 with read_result := r.2 }
  transition_to_running e r.2 (arg : Int)

def move_backward (level : Bool) (e : Ear) (arg : Nat) : Ear :=
  let r := get_idle_position level e
  let e := { r.1 with read_result := r.2 }
  transition_to_running e r.2 (-(arg : Int))

def goto_forward (level : Bool) (e : Ear) (arg : Nat) : Ear :=
  let r := get_idle_position level e
  let e := { r.1 with read_result := r.2 }
  if r.2 = -1 then
    transition_to_detecting e PostState.goto_position 1 arg
  else
    let delta0 : Int := (arg : Int) - r.2
    let delta := if delta0 < 0 then delta0 + (NUM_HOLES : Int) else delta0
    transition_to_running e r.2 delta

def goto_backward (level : Bool) (e : Ear) (arg : Nat) : Ear :=
  let r := get_idle_position level e
  let e := { r.1 with read_result := r.2 }
  if r.2 = -1 then
    transition_to_detecting e PostState.goto_position (-1) arg
  else
    let delta0 : Int := (arg : Int) - r.2
    let delta := if 0 < delta0 then delta0 - (NUM_HOLES : Int) else delta0
    transition_to_running e r.2 delta

def get_position (level : Bool) (e : Ear) (run_detection : Bool) : Ear :=
  let r := get_idle_position level e
  if r.2 = -1 then
    if run_detection then
      transition_to_detecting r.1 PostState.read_position 1 0
    else
      { r.1 with read_result_available := true, read_result := -1 }
  else
    { r.1 with read_result_available := true, read_result := r.2 }

/-- The broken-timer callback (tagtagtagear_broken_timer_cb): the fired
single-shot timer is no longer armed; stop the motors; in testing declare
the ear broken, in any other state go idle with unknown position. -/
def tagtagtagear_broken_timer_cb (e : Ear) : Ear :=
  let e := stop_motors { e with watchdog_armed := false }
  if e.state.isTesting then transition_to_broken e
  else transition_to_idle e (-1)

/-- irq_handler_running from the source, with the raw encoder level (read
when the counter reaches zero) as input. Note that the backward-overrun
corrective branch calls start_motors_backward even though it sets the
direction field to 1 (line 439 of the source). -/
def irq_handler_running (level : Bool) (e : Ear) : Ear :=
  match e.state with
  | EarState.running position direction count =>
    let position := if position ≠ -1 then position_add position direction else position
    let count := (count + 255) % 256
    if count = 0 then
      let e := stop_motors
        (del_broken_timer { e with state := EarState.running position direction count })
      if level then
        if 0 < direction then
          reset_broken_timer (start_motors_backward
            { e with state := EarState.running (position_add position 1) (-1) 1 })
        else
          reset_broken_timer (start_motors_backward
            { e with state := EarState.running (position_add position (-1)) 1 1 })
      else
        transition_to_idle e position
    else
      reset_broken_timer { e with state := EarState.running position direction count }
  | _ => e

def EBUSY : Int := 16

def EFAULT : Int := 14

/-- ear_open from the source: a second open of an already-open ear fails
with -EBUSY and changes nothing; otherwise the open flag is set. -/
def ear_open (e : Ear) : Ear × Int :=
  if e.opened then (e, -EBUSY)
  else ({ e with opened := true }, 0)

/-- Outcome of ear_read: blocked stands for the wait on read_wq not being
satisfied (read_result_available still clear on a non-broken ear);
otherwise the call finishes with the updated ear, the return value, and
the byte delivered to the caller, if any. -/
inductive ReadOutcome where
  | blocked : ReadOutcome
  | finished (e : Ear) (ret : Int) (byte : Option Int) : ReadOutcome
deriving DecidableEq

/-- ear_read from the source: on a broken ear return 0 immediately; wait
for a pending result; a zero-length read then returns 0 leaving the slot
occupied; a nonzero-length read delivers the byte, clears the slot and
returns 1. -/
def ear_read (e : Ear) (len : Nat) : ReadOutcome :=
  if e.state.isBroken then ReadOutcome.finished e 0 none
  else if e.read_result_available = false then ReadOutcome.blocked
  else if len = 0 then ReadOutcome.finished e 0 none
  else ReadOutcome.finished { e with read_result_available := false } 1
    (some e.read_result)

/-- Dispatch of a complete command (the switch at the end of ear_write);
cmd and arg are the two kbuffer bytes, the parameter byte cast through
(unsigned char), hence mod 256. -/
def run_command (level : Bool) (e : Ear) (cmd arg : Nat) : Ear :=
  if cmd = 46 then e
  else if cmd = 43 then move_forward level e (arg % 256)
  else if cmd = 45 then move_backward level e (arg % 256)
  else if cmd = 62 then goto_forward level e (arg % 256)
  else if cmd = 60 then goto_backward level e (arg % 256)
  else if cmd = 63 then get_position level e false
  else if cmd = 33 then get_position level e true
  else e

/-- ear_write from the source, modelling the body once the wait on
write_wq has passed (state broken or idle): an empty write returns 0; a
write on a broken ear fails with -EFAULT; from idle, a buffered command
byte is completed with the incoming parameter byte (returning 1), a
movement command byte without its parameter is buffered (returning 1), a
movement command with its parameter consumes two bytes, and any other
command consumes one byte. -/
def ear_write (level : Bool) (e : Ear) (data : List Nat) : Ear × Int :=
  match data with
  | [] => (e, 0)
  | b :: rest =>
    if e.state.isBroken then (e, -EFAULT)
    else if e.state.isIdle then
      if e.buffer_size then
        (run_command level { e with buffer_size := false } e.buffer b, 1)
      else if b = 43 ∨ b = 45 ∨ b = 62 ∨ b = 60 then
        match rest with
        | [] => ({ e with buffer_size := true, buffer := b }, 1)
        | arg :: _ => (run_command level { e with buffer_size := false } b arg, 2)
      else
        (run_command level { e with buffer_size := false } b 0, 1)
    else (e, 0)

/-- A concrete idle ear at a known position, used by the witnesses. -/
def earAt (p : Nat) : Ear :=
  { detect_boundary_us := 450
    read_result_available := false
    read_result := 0
    buffer := 0
    buffer_size := false
    opened := true
    motor := { pin0 := false, pin1 := false }
    watchdog_armed := false
    state := EarState.idle (p : Int) }

/-- C3: for every state, the broken-timer expiry handler stops the motor
unconditionally; from testing it transitions to broken, and from any other
state to idle with position unknown (-1) — in particular an expiry while
running never leaves running (nor detecting or testing). -/
theorem broken_timer_cb_resolves (e : Ear) :
    (tagtagtagear_broken_timer_cb e).motor = { pin0 := false, pin1 := false } ∧
    (e.state.isTesting = true → (tagtagtagear_broken_timer_cb e).state = EarState.broken) ∧
    (e.state.isTesting = false →
      (tagtagtagear_broken_timer_cb e).state = EarState.idle (-1)) ∧
    (∀ p dir c, e.state = EarState.running p dir c →
      (tagtagtagear_broken_timer_cb e).state = EarState.idle (-1)) := by
  cases h : e.state <;>
    simp [tagtagtagear_broken_timer_cb, stop_motors, transition_to_broken,
      transition_to_idle, EarState.isTesting, h]

/-- Witness for C3: the timer callback on a concrete running ear ends in
idle with unknown position and stopped motors. -/
theorem broken_timer_cb_resolves_witness :
    (tagtagtagear_broken_timer_cb (earAt 5)).motor = { pin0 := false, pin1 := false } ∧
    (tagtagtagear_broken_timer_cb (earAt 5)).state = EarState.idle (-1) :=
  ⟨(broken_timer_cb_resolves (earAt 5)).1,
   (broken_timer_cb_resolves (earAt 5)).2.2.1 rfl⟩

/-- A running ear one edge from completion of a backward move: position 3,
direction -1, one remaining step, motor running backward, watchdog
armed. -/
def earOverrunBackward : Ear :=
  { earAt 0 with
    state := EarState.running 3 (-1) 1
    watchdog_armed := true
    motor := { pin0 := false, pin1 := true } }

/-- C4 failing input, evaluated: when the backward move of
earOverrunBackward reaches zero remaining steps and the encoder still
samples high, the code flips the direction field to 1 (forward) and
adjusts the position for the coming corrective edge, but restarts the
motor backward (pins (0,1), the start_motors_backward pair of line 439)
instead of in the flipped forward direction (pins (1,0)) claimed by the
spec and implied by its own direction field. -/
theorem irq_running_backward_overrun_bug :
    (irq_handler_running true earOverrunBackward).state = EarState.running 1 1 1 ∧
    (irq_handler_running true earOverrunBackward).motor = { pin0 := false, pin1 := true } ∧
    { pin0 := false, pin1 := true } ≠ (start_motors_forward earOverrunBackward).motor := by
  refine ⟨by decide, by decide, by decide⟩

/-- Counterexample to C5 as stated: on a concrete idle ear at position 5
with no pending read result, writing the absolute-move command 62 with
parameter 5 does stop the motors, cancel the watchdog and stay idle at 5,
but the next read does not immediately deliver 5: it blocks, because the
command never sets read_result_available. -/
theorem goto_same_position_read_blocks :
    (ear_write false (earAt 5) [62, 5]).2 = 2 ∧
    (ear_write false (earAt 5) [62, 5]).1.state = EarState.idle 5 ∧
    (ear_write false (earAt 5) [62, 5]).1.motor = { pin0 := false, pin1 := false } ∧
    (ear_write false (earAt 5) [62, 5]).1.watchdog_armed = false ∧
    ear_read (ear_write false (earAt 5) [62, 5]).1 1 = ReadOutcome.blocked := by
  refine ⟨by decide, by decide, by decide, by decide, by decide⟩

/-- C5 (amended): from idle at known position 5 with a read result already
pending, writing the absolute-move command 62 with parameter 5 consumes
two bytes, performs zero motor steps (motors stopped, watchdog cancelled,
ear back in idle at 5), overwrites the pending result with the position,
and the next read delivers 5; without a pending result the read blocks
instead (see the counterexample). -/
theorem goto_same_position_zero_steps (e : Ear)
    (hs : e.state = EarState.idle 5) (hb : e.buffer_size = false)
    (hr : e.read_result_available = true) :
    (ear_write false e [62, 5]).2 = 2 ∧
    (ear_write false e [62, 5]).1.motor = { pin0 := false, pin1 := false } ∧
    (ear_write false e [62, 5]).1.watchdog_armed = false ∧
    (ear_write false e [62, 5]).1.state = EarState.idle 5 ∧
    ear_read (ear_write false e [62, 5]).1 1 =
      ReadOutcome.finished
        { (ear_write false e [62, 5]).1 with read_result_available := false } 1
        (some 5) := by
  obtain ⟨bnd, avail, rr, buf, bsz, op, mot, wd, st⟩ := e
  dsimp only at hs hb hr
  subst hs hb hr
  simp [ear_write, EarState.isBroken, EarState.isIdle, run_command, goto_forward,
    get_idle_position, transition_to_running, transition_to_idle, transition_to_detecting,
    stop_motors, del_broken_timer, reset_broken_timer, start_motors_forward,
    start_motors_backward, ear_read, NUM_HOLES]

/-- Witness for C5's amended theorem on a concrete ear with a pending
moved marker. -/
theorem goto_same_position_zero_steps_witness :
    (ear_write false { earAt 5 with read_result_available := true, read_result := 109 }
      [62, 5]).1.state = EarState.idle 5 ∧
    ear_read (ear_write false
      { earAt 5 with read_result_available := true, read_result := 109 } [62, 5]).1 1 =
      ReadOutcome.finished
        { (ear_write false { earAt 5 with read_result_available := true, read_result := 109 }
            [62, 5]).1 with read_result_available := false } 1 (some 5) :=
  ⟨(goto_same_position_zero_steps _ rfl rfl rfl).2.2.2.1,
   (goto_same_position_zero_steps _ rfl rfl rfl).2.2.2.2⟩

/-- C8: protocol misuse is rejected without state mutation: a second open
of an already-open ear fails with -EBUSY and changes nothing, and a
nonempty write on a broken ear fails with -EFAULT, consuming nothing and
changing nothing, whatever the encoder level and the data written. -/
theorem misuse_rejected (e1 e2 : Ear) (level : Bool) (data : List Nat)
    (h1 : e1.opened = true) (h2 : e2.state = EarState.broken) (hd : data ≠ []) :
    ear_open e1 = (e1, -EBUSY) ∧ ear_write level e2 data = (e2, -EFAULT) := by
  constructor
  · simp [ear_open, h1]
  · cases data with
    | nil => exact absurd rfl hd
    | cons b rest => simp [ear_write, EarState.isBroken, h2]

/-- Witness for C8 on concrete ears. -/
theorem misuse_rejected_witness :
    ear_open (earAt 5) = (earAt 5, -EBUSY) ∧
    ear_write false { earAt 0 with state := EarState.broken } [46] =
      ({ earAt 0 with state := EarState.broken }, -EFAULT) :=
  misuse_rejected (earAt 5) { earAt 0 with state := EarState.broken } false [46]
    rfl rfl (List.cons_ne_nil _ _)

/-- C9: writing the no-op command 46 while idle (with no buffered partial
command) consumes exactly one byte and returns the ear completely
unchanged — same state variant and position, same pending-result slot,
same partial-command buffer, same motor outputs — for every encoder
level, so the command never samples the encoder and never triggers the
moved-to-unknown check. -/
theorem nop_write_noop (e : Ear) (p : Int) (level : Bool) (rest : List Nat)
    (hs : e.state = EarState.idle p) (hb : e.buffer_size = false) :
    ear_write level e (46 :: rest) = (e, 1) := by
  obtain ⟨bnd, avail, rr, buf, bsz, op, mot, wd, st⟩ := e
  dsimp only at hs hb
  subst hs hb
  simp [ear_write, EarState.isBroken, EarState.isIdle, run_command]

/-- Witness for C9 on a concrete idle ear, with the encoder level high. -/
theorem nop_write_noop_witness :
    ear_write true (earAt 5) [46] = (earAt 5, 1) :=
  nop_write_noop (earAt 5) 5 true [] rfl rfl

/-- C10: on a non-broken ear, a read with no pending result blocks
whatever the requested length; once a result is pending, a zero-length
read returns 0 bytes and leaves the pending-result slot occupied and the
ear unchanged, while a read of nonzero length delivers the byte, clears
the slot and returns 1. -/
theorem zero_length_read_semantics (e : Ear) (hs : e.state.isBroken = false) :
    (e.read_result_available = false → ∀ len, ear_read e len = ReadOutcome.blocked) ∧
    (e.read_result_available = true →
      ear_read e 0 = ReadOutcome.finished e 0 none) ∧
    (e.read_result_available = true → ∀ len, 0 < len →
      ear_read e len = ReadOutcome.finished
        { e with read_result_available := false } 1 (some e.read_result)) := by
  refine ⟨?_, ?_, ?_⟩
  · intro h len
    simp [ear_read, hs, h]
  · intro h
    simp [ear_read, hs, h]
  · intro h len hlen
    simp [ear_read, hs, h]
    omega

/-- Witness for C10 on a concrete ear with a pending result. -/
theorem zero_length_read_witness :
    ear_read { earAt 5 with read_result_available := true, read_result := 5 } 0 =
      ReadOutcome.finished
        { earAt 5 with read_result_available := true, read_result := 5 } 0 none ∧
    ear_read { earAt 5 with read_result_available := true, read_result := 5 } 1 =
      ReadOutcome.finished { earAt 5 with read_result_available := false, read_result := 5 }
        1 (some 5) :=
  ⟨(zero_length_read_semantics _ (by decide)).2.1 rfl,
   (zero_length_read_semantics _ (by decide)).2.2 rfl 1 (by decide)⟩

/-- n consecutive falling edges handled in the running state, with the
encoder level sampling low whenever it is read (a clean run with exact
edge counts and no inertia overrun). -/
def runCleanEdges : Ear → Nat → Ear
  | e, 0 => e
  | e, n + 1 => runCleanEdges (irq_handler_running false e) n

/-- The command byte of a relative move: 43 for forward (true), 45 for
backward (false). -/
def relByte (c : Bool × Nat) : Nat := if c.1 then 43 else 45

/-- Issue one relative command from idle through ear_write and run the
resulting motion to completion with clean edges. -/
def execRel (e : Ear) (c : Bool × Nat) : Ear :=
  runCleanEdges (ear_write false e [relByte c, c.2]).1 (c.2 % 256)

def execRelSeq (e : Ear) (cmds : List (Bool × Nat)) : Ear :=
  cmds.foldl execRel e

/-- Signed displacement of one relative command. -/
def cmdDisp (c : Bool × Nat) : Int := if c.1 then (c.2 : Int) else -(c.2 : Int)

/-- Net displacement of a relative command sequence. -/
def netDisp : List (Bool × Nat) → Int
  | [] => 0
  | c :: cs => cmdDisp c + netDisp cs

/-- A clean running motion of n remaining steps from a known position q
ends idle at (q + dir * n) mod 17, and never touches the partial-command
buffer. -/
theorem runCleanEdges_complete :
    ∀ (n : Nat) (e : Ear) (q dir : Int), 1 ≤ n → n ≤ 255 →
      e.state = EarState.running q dir n → 0 ≤ q → q < 17 →
      (dir = 1 ∨ dir = -1) →
      (runCleanEdges e n).state = EarState.idle ((q + dir * n) % 17) ∧
      (runCleanEdges e n).buffer_size = e.buffer_size := by
  intro n
  induction n with
  | zero => intro e q dir h1 _ _ _ _ _; omega
  | succ m ih =>
    intro e q dir _ h255 hs hq0 hq17 hdir
    have hne : q ≠ -1 := by omega
    have hpa : position_add q dir = (q + dir) % 17 :=
      position_add_emod q dir hq0 hq17 (by omega) (by omega)
    cases m with
    | zero =>
      rw [runCleanEdges, runCleanEdges]
      have hstate : (irq_handler_running false e).state = EarState.idle ((q + dir) % 17) := by
        simp [irq_handler_running, hs, hne, hpa, transition_to_idle, stop_motors,
          del_broken_timer]
      have hbuf : (irq_handler_running false e).buffer_size = e.buffer_size := by
        simp [irq_handler_running, hs, hne, transition_to_idle, stop_motors,
          del_broken_timer]
      refine ⟨?_, hbuf⟩
      rw [hstate]
      rcases hdir with h | h <;> subst h <;> (congr 1 <;> omega)
    | succ k =>
      rw [runCleanEdges]
      have hcount : (k + 1 + 1 + 255) % 256 = k + 1 := by omega
      have hstate : (irq_handler_running false e).state =
          EarState.running ((q + dir) % 17) dir (k + 1) := by
        simp [irq_handler_running, hs, hne, hpa, hcount, reset_broken_timer]
      have hbuf : (irq_handler_running false e).buffer_size = e.buffer_size := by
        simp [irq_handler_running, hs, hne, hcount, reset_broken_timer]
      have hq0' : (0 : Int) ≤ (q + dir) % 17 := Int.emod_nonneg _ (by norm_num)
      have hq17' : (q + dir) % 17 < 17 := Int.emod_lt_of_pos _ (by norm_num)
      have ihr := ih (irq_handler_running false e) ((q + dir) % 17) dir (by omega)
        (by omega) hstate hq0' hq17' hdir
      refine ⟨?_, by rw [ihr.2, hbuf]⟩
      rw [ihr.1]
      rcases hdir with h | h <;> subst h <;> (congr 1 <;> omega)

/-- Executing one relative command cleanly from idle at a known position q
ends idle at (q + cmdDisp c) mod 17 with the command buffer still
empty. -/
theorem execRel_idle (e : Ear) (q : Int) (c : Bool × Nat)
    (hs : e.state = EarState.idle q) (hb : e.buffer_size = false)
    (hq0 : 0 ≤ q) (hq17 : q < 17) (hc : c.2 ≤ 255) :
    (execRel e c).state = EarState.idle ((q + cmdDisp c) % 17) ∧
    (execRel e c).buffer_size = false := by
  obtain ⟨cf, ca⟩ := c
  dsimp only at hc
  have hmod : ca % 256 = ca := Nat.mod_eq_of_lt (by omega)
  rcases Nat.eq_zero_or_pos ca with hca0 | hcapos
  · subst hca0
    cases cf <;>
      constructor <;>
        simp [execRel, relByte, cmdDisp, ear_write, EarState.isIdle, EarState.isBroken,
          run_command, move_forward, move_backward, get_idle_position, hs, hb,
          transition_to_running, transition_to_idle, stop_motors, del_broken_timer,
          reset_broken_timer, runCleanEdges] <;>
        omega
  · have hwrite : ∀ lv, (ear_write lv e [relByte (cf, ca), ca]).1 =
        run_command lv { e with buffer_size := false } (relByte (cf, ca)) ca := by
      intro lv
      cases cf <;>
        simp [ear_write, relByte, EarState.isIdle, EarState.isBroken, hs, hb]
    have hstate : (ear_write false e [relByte (cf, ca), ca]).1.state =
        EarState.running q (if cf then 1 else -1) ca ∧
        (ear_write false e [relByte (cf, ca), ca]).1.buffer_size = false := by
      rw [hwrite]
      cases cf <;>
        constructor <;>
          simp [run_command, relByte, move_forward, move_backward, get_idle_position,
            hs, hmod, transition_to_running, reset_broken_timer, start_motors_forward,
            start_motors_backward, Int.toNat_natCast,
            show (0 : Int) < (ca : Int) from by exact_mod_cast hcapos,
            show ¬ ((ca : Int) < 0) from by omega,
            show (- -(ca : Int)).toNat = ca from by omega, hmod]
    have hrun := runCleanEdges_complete ca _ q (if cf then 1 else -1) (by omega) (by omega)
      hstate.1 hq0 hq17 (by cases cf <;> simp)
    rw [execRel, hmod] at *
    refine ⟨?_, by rw [hrun.2, hstate.2]⟩
    rw [hrun.1]
    cases cf <;> simp [cmdDisp] <;> (congr 1 <;> omega)

/-- Folding a list of relative commands from idle accumulates the net
displacement modulo 17. -/
theorem execRelSeq_idle :
    ∀ (cmds : List (Bool × Nat)) (e : Ear) (q : Int),
      e.state = EarState.idle q → e.buffer_size = false → 0 ≤ q → q < 17 →
      (∀ c ∈ cmds, c.2 ≤ 255) →
      (execRelSeq e cmds).state = EarState.idle ((q + netDisp cmds) % 17) := by
  intro cmds
  induction cmds with
  | nil =>
    intro e q hs hb hq0 hq17 _
    simp only [execRelSeq, List.foldl_nil, netDisp]
    rw [hs]
    congr 1
    omega
  | cons c cs ih =>
    intro e q hs hb hq0 hq17 hargs
    have h1 := execRel_idle e q c hs hb hq0 hq17 (hargs c (by simp))
    have hq0' : (0 : Int) ≤ (q + cmdDisp c) % 17 := Int.emod_nonneg _ (by norm_num)
    have hq17' : (q + cmdDisp c) % 17 < 17 := Int.emod_lt_of_pos _ (by norm_num)
    have h2 := ih (execRel e c) ((q + cmdDisp c) % 17) h1.1 h1.2 hq0' hq17'
      (fun x hx => hargs x (by simp [hx]))
    show (execRelSeq (execRel e c) cs).state = _
    rw [h2]
    congr 1
    show ((q + cmdDisp c) % 17 + netDisp cs) % 17 = (q + (cmdDisp c + netDisp cs)) % 17
    omega

/-- C7: from any known position p and for every sequence of relative
forward/backward commands with byte-sized arguments, executed to
completion with clean edge counts, the final idle position is
(p + d) mod 17 where d is the sequence's net displacement. -/
theorem relative_moves_round_trip (p : Nat) (hp : p < 17)
    (cmds : List (Bool × Nat)) (hargs : ∀ c ∈ cmds, c.2 ≤ 255) :
    (execRelSeq (earAt p) cmds).state =
      EarState.idle (((p : Int) + netDisp cmds) % 17) :=
  execRelSeq_idle cmds (earAt p) (p : Int) rfl rfl (by omega) (by exact_mod_cast hp) hargs

/-- Witness for C7: from position 5, moving +3 then -1 ends at
(5 + 2) mod 17 = 7. -/
theorem relative_moves_round_trip_witness :
    (5 : Nat) < 17 ∧
    (execRelSeq (earAt 5) [(true, 3), (false, 1)]).state =
      EarState.idle ((((5 : Nat) : Int) + netDisp [(true, 3), (false, 1)]) % 17) ∧
    ((((5 : Nat) : Int) + netDisp [(true, 3), (false, 1)]) % 17 = 7) :=
  ⟨by decide,
   relative_moves_round_trip 5 (by decide) [(true, 3), (false, 1)] (by decide),
   by decide⟩
